import Mathlib

/-!
Shallow embedding of `olac/pipeline.py`: the `BatchQueue`, the one-shot stop
flag, the prediction and labelling workers of `Pipeline`, and the example
collaborators `OnlinePredictor` and `ThresholdLabeller`.  Machine state is
modelled explicitly; the two worker threads are modelled by an interleaving
semantics driven by a schedule (a list of booleans choosing which worker
executes its next atomic step).
-/

namespace Olac

/-- A predicted value: either the NaN sentinel produced during burn-in
(`np.nan` in `OnlinePredictor.do_prediction`) or a numeric value. -/
inductive PVal where
  | nan : PVal
  | num (r : Rat) : PVal
deriving DecidableEq, Repr

/-- The `QueuePoint` record of `pipeline.py` (lines 25-46): a data point
moving through the pipeline.  `point` is the feature vector `x`, `index` the
position in the input stream, `true_label` the trailing label of the raw
record. -/
structure QueuePoint where
  point : List Rat
  index : Nat
  predicted_label : Option PVal := none
  prob : Option PVal := none
  true_label : Option Rat := none
deriving DecidableEq, Repr

/- ----------------------------------------------------------------------
BatchQueue (lines 49-77).  A `queue.Queue` is modelled by the list of its
items in FIFO order, head = front.
---------------------------------------------------------------------- -/

variable {α : Type}

/-- One `put(x)`: append to the tail. -/
def put (q : List α) (x : α) : List α := q ++ [x]

/-- `BatchQueue.put_all` (lines 67-77): `for i in items: self.put(i)`. -/
def put_all (q : List α) (items : List α) : List α := items.foldl put q

/-- One blocking `get()`: remove and return the head; `none` models a call
that blocks forever on an empty queue. -/
def qget : List α → Option (α × List α)
  | [] => none
  | x :: rest => some (x, rest)

/-- The loop of `BatchQueue.get_all` (lines 60-63): perform `n` `get()`
calls, accumulating the results in order; `none` if some `get` blocks. -/
def getAllAux : Nat → List α → Option (List α × List α)
  | 0, q => some ([], q)
  | n + 1, q =>
    match qget q with
    | none => none
    | some (x, rest) =>
      match getAllAux n rest with
      | none => none
      | some (out, q2) => some (x :: out, q2)

/-- `BatchQueue.get_all` (lines 50-65): snapshot `qsize()`, then perform
exactly that many `get()` calls and return the collected items. -/
def get_all (q : List α) : Option (List α × List α) := getAllAux q.length q

/-- `get_all` running against a concurrent producer: `arrivals k` lists the
items the producer appends to the tail between the `qsize()` snapshot (or the
previous `get`) and the `k`-th consumer `get()`.  The number of `get` calls
was fixed by the snapshot before any of them ran. -/
def getAllConc : Nat → List α → (Nat → List α) → Nat → Option (List α)
  | 0, _, _, _ => some []
  | n + 1, q, arrivals, k =>
    match qget (q ++ arrivals k) with
    | none => none
    | some (x, rest) => (getAllConc n rest arrivals (k + 1)).map (fun out => x :: out)

/- ----------------------------------------------------------------------
Collaborator interfaces (PredictorBase, LabellerBase).  Per the contracts in
the class docstrings, the Predictor callbacks read the pipeline state and may
consume the training queue (its whole mutable authority is the predictor or
model state `PS` plus the training queue), and the Labeller partitions the
batch drained from the labelling queue, with mutable authority over its own
state `LS`.
---------------------------------------------------------------------- -/

/-- A Predictor collaborator with internal state `PS` (the predictor together
with the model it fits).  `train_condition` and `train_pipeline_model` see
the training queue; `do_prediction` maps a feature vector to a
(label, confidence) pair. -/
structure PredictorM (PS : Type) where
  train_condition : PS → List QueuePoint → Bool
  train_pipeline_model : PS → List QueuePoint → PS × List QueuePoint
  do_prediction : PS → List Rat → PVal × PVal

/-- A Labeller collaborator with internal state `LS`.  `buy_labels_condition`
sees the labelling queue; `buy_labels` receives the batch drained by
`get_all` and returns (labelled, unlabelled, new state). -/
structure LabellerM (LS : Type) where
  buy_labels_condition : LS → List QueuePoint → Bool
  buy_labels : LS → List QueuePoint → List QueuePoint × List QueuePoint × LS

/-- The Labeller contract of the spec: `buy_labels` partitions the batch it
drains — every drained point is placed in exactly one of the two returned
sequences and none is invented. -/
def PartitionLabeller {LS : Type} (L : LabellerM LS) : Prop :=
  ∀ ls batch, List.Perm ((L.buy_labels ls batch).1 ++ (L.buy_labels ls batch).2.1) batch

/- ----------------------------------------------------------------------
Pipeline state and the two workers (lines 80-210).  The state bundles the
shared objects (`labelling_queue`, `training_queue`, `_stop_flag`) with the
local state of each worker.  `enq_log` and `drained` are ghost fields: the
list of every point ever put on the labelling queue, and the count of points
ever drained from it.
---------------------------------------------------------------------- -/

/-- State of a `Pipeline.run` in flight, for predictor state `PS` and
labeller state `LS`. -/
structure PipeState (PS LS : Type) where
  stream : List (List Rat)
  pos : Nat
  ps : PS
  ls : LS
  labelling_queue : List QueuePoint
  training_queue : List QueuePoint
  stop_flag : Bool
  pred_done : Bool
  lab_done : Bool
  training_set : List QueuePoint
  eval_set : List QueuePoint
  enq_log : List QueuePoint
  drained : Nat

/-- State at the start of `run`: full stream, empty queues, flag unset
(`self._stop_flag = mp.Event()` in `__init__`, lines 128-130). -/
def initState {PS LS : Type} (stream : List (List Rat)) (ps0 : PS) (ls0 : LS) :
    PipeState PS LS :=
  { stream := stream, pos := 0, ps := ps0, ls := ls0, labelling_queue := [],
    training_queue := [], stop_flag := false, pred_done := false,
    lab_done := false, training_set := [], eval_set := [], enq_log := [],
    drained := 0 }

/-- The optional training of one prediction-worker iteration (lines 171-172):
if `train_condition` holds, run `train_pipeline_model`, else leave the
predictor state and the training queue unchanged. -/
def trainedState {PS : Type} (P : PredictorM PS) (ps : PS)
    (tq : List QueuePoint) : PS × List QueuePoint :=
  if P.train_condition ps tq then P.train_pipeline_model ps tq else (ps, tq)

/-- The `QueuePoint` built by one prediction-worker iteration
(lines 174-182): `x = new_point[:-1]`, `y_true = new_point[-1]`, prediction
from `do_prediction` on `x`.  (`getLast?` is `none` only for an empty raw
record, which the Python indexing would reject outright.) -/
def predPoint {PS : Type} (P : PredictorM PS) (ps1 : PS) (pos : Nat)
    (p : List Rat) : QueuePoint :=
  { point := p.dropLast, index := pos,
    predicted_label := some (P.do_prediction ps1 p.dropLast).1,
    prob := some (P.do_prediction ps1 p.dropLast).2,
    true_label := p.getLast? }

/-- One atomic step of the prediction worker (`_prediction_worker`,
lines 163-185).  With stream input remaining: one iteration of the `for`
loop — optional train, split, predict, enqueue on the labelling queue.  With
the stream exhausted: `self._stop_flag.set()`, after which the worker is
done.  A finished worker leaves the state unchanged. -/
def stepPred {PS LS : Type} (P : PredictorM PS) (s : PipeState PS LS) :
    PipeState PS LS :=
  if s.pred_done then s else
  match s.stream with
  | [] => { s with stop_flag := true, pred_done := true }
  | p :: rest =>
    let ps1 := (trainedState P s.ps s.training_queue).1
    let tq1 := (trainedState P s.ps s.training_queue).2
    let qp := predPoint P ps1 s.pos p
    { s with stream := rest, pos := s.pos + 1, ps := ps1,
             training_queue := tq1,
             labelling_queue := put s.labelling_queue qp,
             enq_log := s.enq_log ++ [qp] }

/-- One atomic step of the labelling worker (`_labelling_worker`,
lines 187-210): one check of the `while not self._stop_flag.is_set()` loop.
If the flag is set the loop exits and the worker returns its accumulators —
there is no drain after the loop.  Otherwise, if `buy_labels_condition`
holds, the labeller drains the labelling queue with `get_all` inside
`buy_labels`, the resulting partition is appended to the accumulators, and
the labelled points are forwarded with `training_queue.put_all`. -/
def stepLab {PS LS : Type} (L : LabellerM LS) (s : PipeState PS LS) :
    PipeState PS LS :=
  if s.lab_done then s else
  if s.stop_flag then { s with lab_done := true } else
  if L.buy_labels_condition s.ls s.labelling_queue then
    let batch := s.labelling_queue
    let r := L.buy_labels s.ls batch
    { s with labelling_queue := [],
             ls := r.2.2,
             training_set := s.training_set ++ r.1,
             eval_set := s.eval_set ++ r.2.1,
             training_queue := put_all s.training_queue r.1,
             drained := s.drained + batch.length }
  else s

/-- One scheduler decision: `true` runs one atomic step of the prediction
worker, `false` one of the labelling worker. -/
def doStep {PS LS : Type} (P : PredictorM PS) (L : LabellerM LS)
    (s : PipeState PS LS) (c : Bool) : PipeState PS LS :=
  if c then stepPred P s else stepLab L s

/-- Run the two workers under an explicit interleaving schedule. -/
def exec {PS LS : Type} (P : PredictorM PS) (L : LabellerM LS)
    (sched : List Bool) (s : PipeState PS LS) : PipeState PS LS :=
  sched.foldl (doStep P L) s

/-- Reachability: some interleaving of the two workers leads from `s0`
to `s`. -/
def Reach {PS LS : Type} (P : PredictorM PS) (L : LabellerM LS)
    (s0 s : PipeState PS LS) : Prop :=
  ∃ sched, exec P L sched s0 = s

/-- Multiset of the `index` fields of a list of points. -/
def qIdx (l : List QueuePoint) : Multiset Nat :=
  (l.map QueuePoint.index : List Nat)

/- ----------------------------------------------------------------------
Invariants of the two workers.
---------------------------------------------------------------------- -/

/-- Invariant maintained by the prediction worker, for initial stream
`stream0`: the stream is consumed in order, the enqueue log records exactly
the processed points with their stream position, split and prediction, and
the stop flag is set exactly when the worker has exhausted the stream and
signalled. -/
structure PredInv (stream0 : List (List Rat)) {PS LS : Type}
    (s : PipeState PS LS) : Prop where
  pos_stream : s.pos + s.stream.length = stream0.length
  stream_eq : s.stream = stream0.drop s.pos
  log_len : s.enq_log.length = s.pos
  log_spec : ∀ (k : Nat) (e : QueuePoint), s.enq_log[k]? = some e →
    e.index = k ∧
    ∃ p, stream0[k]? = some p ∧ e.point = p.dropLast ∧
      e.true_label = p.getLast? ∧
      ∃ q : _ × _, e.predicted_label = some q.1 ∧ e.prob = some q.2
  flag_pred : s.stop_flag = true → s.pred_done = true
  pred_flag : s.pred_done = true → s.stop_flag = true ∧ s.stream = []

/-- Invariant maintained by the labelling worker under a partitioning
labeller: the indices sitting in the labelling queue and in the two result
accumulators are exactly the stream positions processed so far, and the
ghost drain counter matches the accumulated results. -/
structure LabInv {PS LS : Type} (s : PipeState PS LS) : Prop where
  idx_perm : qIdx s.labelling_queue + qIdx s.training_set + qIdx s.eval_set
      = Multiset.range s.pos
  drained_eq : s.drained = s.training_set.length + s.eval_set.length

/- ----------------------------------------------------------------------
Example collaborators.
---------------------------------------------------------------------- -/

/-- Minimal model of the scikit-learn online classifier handle: `coef` is
`none` before the first `partial_fit`; `predict` and `decision_function`
raise `NotFittedError` until then. -/
structure SGDModel where
  coef : Option (List Rat)

/-- The error a not-yet-fitted model raises. -/
inductive SkError where
  | notFitted
deriving DecidableEq, Repr

/-- Dot product of two feature vectors. -/
def dot : List Rat → List Rat → Rat
  | [], _ => 0
  | _, [] => 0
  | a :: as, b :: bs => a * b + dot as bs

/-- The decision function of the model handle: raises `NotFittedError`
before the first fit. -/
def SGDModel.decision_function (m : SGDModel) (x : List Rat) :
    Except SkError Rat :=
  match m.coef with
  | none => Except.error SkError.notFitted
  | some w => Except.ok (dot w x)

/-- The predict operation of the model handle: raises `NotFittedError`
before the first fit. -/
def SGDModel.predict (m : SGDModel) (x : List Rat) : Except SkError Rat :=
  (m.decision_function x).map (fun s => if 0 ≤ s then 1 else 0)

/-- `OnlinePredictor.do_prediction` (lines 394-408): try `model.predict` and
`model.decision_function`; on `NotFittedError` (burn-in) return the NaN
sentinels instead of failing. -/
def OnlinePredictor.do_prediction (m : SGDModel) (x : List Rat) : PVal × PVal :=
  match m.predict x, m.decision_function x with
  | Except.ok y, Except.ok s => (PVal.num y, PVal.num s)
  | _, _ => (PVal.nan, PVal.nan)

/-- `ThresholdLabeller` state (lines 420-432): threshold, labelling
probability and the running count of labels bought. -/
structure ThresholdLabeller where
  threshold : Nat
  prob : Rat
  labels_bought : Nat

/-- `ThresholdLabeller.buy_labels_condition` (lines 434-441): buy when the
labelling queue is strictly longer than the threshold. -/
def ThresholdLabeller.buy_labels_condition (tl : ThresholdLabeller)
    (qsize : Nat) : Bool :=
  decide (tl.threshold < qsize)

/-- The `for point in points` loop of `ThresholdLabeller.buy_labels`
(lines 451-457).  `rand k` is the `k`-th draw of `np.random.uniform(0, 1)`
and the loop starts at draw index `k`.  Returns the labelled list, the
unlabelled list, and the number of labels bought. -/
def buyLoop (prob : Rat) (rand : Nat → Rat) :
    List QueuePoint → Nat → List QueuePoint × List QueuePoint × Nat
  | [], _ => ([], [], 0)
  | p :: rest, k =>
    let r := buyLoop prob rand rest (k + 1)
    if rand k < prob then (p :: r.1, r.2.1, r.2.2 + 1)
    else (r.1, p :: r.2.1, r.2.2)

/-- `ThresholdLabeller.buy_labels` (lines 443-461) applied to the batch
`points` drained by `get_all`, with random draws `rand`: label each point
with probability `prob`, counting the labels bought. -/
def ThresholdLabeller.buy_labels (tl : ThresholdLabeller)
    (points : List QueuePoint) (rand : Nat → Rat) :
    List QueuePoint × List QueuePoint × ThresholdLabeller :=
  let r := buyLoop tl.prob rand points 0
  (r.1, r.2.1, { tl with labels_bought := tl.labels_bought + r.2.2 })

/- ----------------------------------------------------------------------
Concrete scenario A of the spec: 5 points with labels [0,1,0,1,1], a
predictor that never trains and always answers (0, 1/2), a labeller that
buys whenever the queue is non-empty and labels everything.
---------------------------------------------------------------------- -/

/-- The Predictor of scenario A: `train_condition` always false,
`do_prediction` always `(0, 1/2)`. -/
def constPredictor : PredictorM Unit :=
  { train_condition := fun _ _ => false,
    train_pipeline_model := fun ps tq => (ps, tq),
    do_prediction := fun _ _ => (PVal.num 0, PVal.num (1/2)) }

/-- The Labeller of scenario A: buy whenever the labelling queue is
non-empty, label every drained point. -/
def allLabeller : LabellerM Unit :=
  { buy_labels_condition := fun _ q => !q.isEmpty,
    buy_labels := fun ls batch => (batch, [], ls) }

/-- The input stream of scenario A: 5 records, each a feature followed by
the true label; labels are [0,1,0,1,1]. -/
def streamA : List (List Rat) :=
  [[10, 0], [11, 1], [12, 0], [13, 1], [14, 1]]

/-- The adversarial interleaving: the prediction worker runs to completion —
five points enqueued, then the flag set — before the labelling worker
performs its next loop check. -/
def badSchedA : List Bool := [true, true, true, true, true, true, false]

/-- A fair interleaving: after every enqueue the labelling worker drains,
and only then does the prediction worker proceed; the final drain happens
before the flag is set. -/
def goodSchedA : List Bool :=
  [true, false, true, false, true, false, true, false, true, false, true, false]

/- ----------------------------------------------------------------------
Orchestration and error propagation (`err_handler`, lines 13-22, and
`Pipeline.run`, lines 147-161).  `run` submits both workers with
`pool.apply_async(..., error_callback=err_handler)`, then `pool.close()`,
`pool.join()`, `results.get()`.  In `multiprocessing.pool`, a task that
raises has its exception delivered to `error_callback` inside the pool
result-handler thread (`ApplyResult._set`); if the callback itself raises,
that thread dies before the completion event of the result is set and
before the cache entry is removed, after which `pool.join()` and
`results.get()` block forever.  A task that never finishes likewise blocks
`pool.join()` forever.
---------------------------------------------------------------------- -/

/-- Outcome of one worker task: returned a value, raised an exception, or
never finished. -/
inductive WorkerOutcome (E R : Type) where
  | ok (r : R)
  | exn (e : E)
  | diverge
deriving DecidableEq, Repr

/-- What the caller of `Pipeline.run` observes. -/
inductive RunOutcome (E R : Type) where
  | returns (r : R)
  | raises (e : E)
  | hangs
deriving DecidableEq, Repr

/-- `err_handler` (lines 13-22): a callback that re-raises the exception it
is handed.  `Except.error e` models a callback invocation that itself
raises `e`. -/
def err_handler {E : Type} (e : E) : Except E Unit := Except.error e

/-- Whether a callback invocation raised. -/
def raisedIn {E : Type} : Except E Unit → Bool
  | Except.error _ => true
  | Except.ok _ => false

/-- The observable behaviour of `Pipeline.run` (lines 147-161) as a function
of the two worker outcomes and the installed error callback, following the
`multiprocessing.pool` delivery semantics described above: a diverging
worker hangs `pool.join()`; a worker exception whose callback re-raises
kills the result handler, hanging `run`; otherwise `results.get()` returns
the labelling-worker result or re-raises its exception. -/
def poolRun {E R : Type} (ecb : E → Except E Unit)
    (lab : WorkerOutcome E R) (pred : WorkerOutcome E Unit) :
    RunOutcome E R :=
  match lab, pred with
  | WorkerOutcome.diverge, _ => RunOutcome.hangs
  | _, WorkerOutcome.diverge => RunOutcome.hangs
  | WorkerOutcome.exn e, WorkerOutcome.ok _ =>
    if raisedIn (ecb e) then RunOutcome.hangs else RunOutcome.raises e
  | WorkerOutcome.exn e, WorkerOutcome.exn e2 =>
    if raisedIn (ecb e) || raisedIn (ecb e2) then RunOutcome.hangs
    else RunOutcome.raises e
  | WorkerOutcome.ok r, WorkerOutcome.ok _ => RunOutcome.returns r
  | WorkerOutcome.ok r, WorkerOutcome.exn e =>
    if raisedIn (ecb e) then RunOutcome.hangs else RunOutcome.returns r

/-- Scenario A run under the adversarial interleaving. -/
def runBadA : PipeState Unit Unit :=
  exec constPredictor allLabeller badSchedA (initState streamA () ())

/-- Scenario A run under the fair interleaving. -/
def runGoodA : PipeState Unit Unit :=
  exec constPredictor allLabeller goodSchedA (initState streamA () ())

/-- Scenario A after the very first prediction step only: one point has been
enqueued and the flag is still unset. -/
def runOneA : PipeState Unit Unit :=
  exec constPredictor allLabeller [true] (initState streamA () ())

/-- A sample point used by concrete witnesses. -/
def sampleQP : QueuePoint :=
  { point := [1], index := 0 }

/- ======================================================================
Theorems.
====================================================================== -/

/-- Helper: `put_all` appends its items to the tail in order. -/
theorem put_all_eq_append {α : Type} (items q : List α) :
    put_all q items = q ++ items := by
  induction items generalizing q with
  | nil => simp [put_all]
  | cons x xs ih =>
    have h0 : put_all q (x :: xs) = put_all (q ++ [x]) xs := rfl
    rw [h0, ih]
    simp

/-- Helper: draining with a loop count equal to the queue length returns the
whole queue without blocking. -/
theorem getAllAux_len {α : Type} (q : List α) :
    getAllAux q.length q = some (q, []) := by
  induction q with
  | nil => rfl
  | cons x xs ih => simp [getAllAux, qget, ih]

/-- Helper: `get_all` returns the full queue contents in order, leaving the
queue empty. -/
theorem get_all_eq {α : Type} (q : List α) : get_all q = some (q, []) :=
  getAllAux_len q

/-- Helper: taking at most the length of the first list ignores the items
appended after it. -/
theorem take_append_le {α : Type} :
    ∀ (n : Nat) (l1 l2 : List α), n ≤ l1.length →
      (l1 ++ l2).take n = l1.take n
  | 0, _, _, _ => by simp
  | n + 1, [], _, h => by simp at h
  | n + 1, x :: xs, l2, h => by
    show x :: (xs ++ l2).take n = x :: xs.take n
    exact congrArg (x :: ·) (take_append_le n xs l2 (Nat.le_of_succ_le_succ h))

/-- Helper: with the loop count at most the snapshot length, `get_all`
returns that many items from the head, no matter what a concurrent producer
appends to the tail meanwhile. -/
theorem getAllConc_take {α : Type} :
    ∀ (n : Nat) (q : List α) (arr : Nat → List α) (k : Nat), n ≤ q.length →
      getAllConc n q arr k = some (q.take n)
  | 0, q, arr, k, _ => by simp [getAllConc]
  | n + 1, [], _, _, h => by simp at h
  | n + 1, x :: xs, arr, k, h => by
    have h1 : n ≤ xs.length := Nat.le_of_succ_le_succ h
    have h2 : n ≤ (xs ++ arr k).length := by
      simp only [List.length_append]
      omega
    simp [getAllConc, qget, getAllConc_take n (xs ++ arr k) arr (k + 1) h2,
      take_append_le n xs (arr k) h1]

/-- Claim C6: enqueueing N items (via `put` or `put_all`) and then calling
`get_all` returns exactly those N items in the same order, and a second
`get_all` immediately after a drain, with no intervening enqueue, returns
the empty list. -/
theorem put_all_then_get_all {α : Type} :
    (∀ items : List α, get_all (put_all [] items) = some (items, []))
    ∧ ∀ (q out rest : List α), get_all q = some (out, rest) →
        get_all rest = some ([], rest) := by
  constructor
  · intro items
    rw [put_all_eq_append]
    simpa using get_all_eq items
  · intro q out rest h
    have hq := get_all_eq q
    rw [h] at hq
    simp only [Option.some.injEq, Prod.mk.injEq] at hq
    rw [hq.2]
    exact get_all_eq []

/-- Witness for C6: a concrete drain, and the drain immediately after it
returning the empty list. -/
theorem put_all_then_get_all_witness :
    get_all [sampleQP] = some ([sampleQP], [])
    ∧ get_all ([] : List QueuePoint) = some ([], []) :=
  ⟨rfl, put_all_then_get_all.2 [sampleQP] [sampleQP] [] (get_all_eq [sampleQP])⟩

/-- Claim C9: `get_all` terminates after exactly the snapshot number of
dequeues when the caller is the only consumer, returning precisely the items
present at the snapshot; items appended concurrently after the snapshot do
not appear in the returned list. -/
theorem get_all_concurrent_snapshot {α : Type} :
    ∀ (q : List α) (arrivals : Nat → List α),
      getAllConc q.length q arrivals 0 = some q := by
  intro q arrivals
  simpa using getAllConc_take q.length q arrivals 0 (Nat.le_refl _)

/-- Helper: the labelling loop of `ThresholdLabeller.buy_labels` splits its
input into two complementary subsequences and counts the labelled one. -/
theorem buyLoop_spec (prob : Rat) (rand : Nat → Rat) :
    ∀ (points : List QueuePoint) (k : Nat),
      (buyLoop prob rand points k).1.Sublist points
      ∧ (buyLoop prob rand points k).2.1.Sublist points
      ∧ ((buyLoop prob rand points k).1 ++ (buyLoop prob rand points k).2.1).Perm points
      ∧ (buyLoop prob rand points k).2.2 = (buyLoop prob rand points k).1.length := by
  intro points
  induction points with
  | nil => intro k; simp [buyLoop]
  | cons p rest ih =>
    intro k
    obtain ⟨h1, h2, h3, h4⟩ := ih (k + 1)
    by_cases hr : rand k < prob
    · simp only [buyLoop, if_pos hr]
      exact ⟨List.Sublist.cons₂ p h1, List.Sublist.cons p h2,
        h3.cons p, by simp [h4]⟩
    · simp only [buyLoop, if_neg hr]
      exact ⟨List.Sublist.cons p h1, List.Sublist.cons₂ p h2,
        List.perm_middle.trans (h3.cons p), h4⟩

/-- Claim C10: `ThresholdLabeller.buy_labels` places every drained point in
exactly one of its two returned lists, preserving the drained order within
each, and increments `labels_bought` by the length of the labelled list. -/
theorem threshold_buy_labels_partition (tl : ThresholdLabeller)
    (points : List QueuePoint) (rand : Nat → Rat) :
    (tl.buy_labels points rand).1.Sublist points
    ∧ (tl.buy_labels points rand).2.1.Sublist points
    ∧ ((tl.buy_labels points rand).1 ++ (tl.buy_labels points rand).2.1).Perm points
    ∧ (tl.buy_labels points rand).2.2.labels_bought
        = tl.labels_bought + (tl.buy_labels points rand).1.length := by
  obtain ⟨h1, h2, h3, h4⟩ := buyLoop_spec tl.prob rand points 0
  exact ⟨h1, h2, h3, by simp only [ThresholdLabeller.buy_labels]; rw [h4]⟩

/-- Claim C7: calling `OnlinePredictor.do_prediction` before the model has
ever been fit returns the NaN sentinel pair instead of raising. -/
theorem do_prediction_not_fitted (m : SGDModel) (x : List Rat)
    (h : m.coef = none) :
    OnlinePredictor.do_prediction m x = (PVal.nan, PVal.nan) := by
  cases m with
  | mk coef =>
    cases coef with
    | none => rfl
    | some w => simp at h

/-- Witness for C7: the unfitted model on a concrete point. -/
theorem do_prediction_not_fitted_witness :
    (⟨none⟩ : SGDModel).coef = none
    ∧ OnlinePredictor.do_prediction ⟨none⟩ [1] = (PVal.nan, PVal.nan) :=
  ⟨rfl, do_prediction_not_fitted ⟨none⟩ [1] rfl⟩

/-- Claim C8 evaluated on the code: with `err_handler` installed as the
error callback, an exception in either worker leaves `Pipeline.run` hanging
instead of propagating the exception to the caller. -/
theorem worker_error_hangs_run {E R : Type} :
    (∀ (e : E) (pred : WorkerOutcome E Unit),
        poolRun err_handler (WorkerOutcome.exn e : WorkerOutcome E R) pred
          = RunOutcome.hangs)
    ∧ ∀ (e : E) (lab : WorkerOutcome E R),
        poolRun err_handler lab (WorkerOutcome.exn e) = RunOutcome.hangs := by
  constructor
  · intro e w
    cases w <;> simp [poolRun, err_handler, raisedIn]
  · intro e w
    cases w <;> simp [poolRun, err_handler, raisedIn]

/-- Claim C1 evaluated on the code: in scenario A, point 0 is enqueued while
the flag is still unset (state after the first step), yet under the
adversarial interleaving the labelling worker terminates with nothing ever
drained and all five points still sitting in the labelling queue. -/
theorem labelling_worker_drops_final_batch :
    (runOneA.stop_flag = false ∧ runOneA.enq_log.length = 1)
    ∧ runBadA.lab_done = true
    ∧ runBadA.stop_flag = true
    ∧ runBadA.drained = 0
    ∧ runBadA.training_set = []
    ∧ runBadA.eval_set = []
    ∧ runBadA.labelling_queue.length = 5 := by
  decide

/-- Claim C2 evaluated on the code: under the adversarial interleaving,
scenario A returns an empty `training_set` instead of the expected five
entries. -/
theorem scenarioA_adversarial_empty :
    runBadA.lab_done = true
    ∧ runBadA.training_set.length = 0
    ∧ runBadA.eval_set.length = 0 := by
  decide

/-- Under the fair interleaving, scenario A does produce the expected result:
five labelled entries with indices 0..4 and an empty eval set.  This is the
outcome the spec describes; the adversarial interleaving above shows the
code does not guarantee it. -/
theorem scenarioA_fair_full :
    runGoodA.lab_done = true
    ∧ runGoodA.training_set.length = 5
    ∧ runGoodA.training_set.map QueuePoint.index = [0, 1, 2, 3, 4]
    ∧ runGoodA.eval_set = [] := by
  decide

/- ----------------------------------------------------------------------
Step-shape lemmas for the two workers.
---------------------------------------------------------------------- -/

/-- Helper: a finished prediction worker leaves the state unchanged. -/
theorem stepPred_of_done {PS LS : Type} (P : PredictorM PS)
    (s : PipeState PS LS) (h : s.pred_done = true) : stepPred P s = s := by
  simp [stepPred, h]

/-- Helper: with the stream exhausted, the prediction worker sets the stop
flag and finishes. -/
theorem stepPred_signal {PS LS : Type} (P : PredictorM PS)
    (s : PipeState PS LS) (h1 : s.pred_done = false) (h2 : s.stream = []) :
    stepPred P s = { s with stop_flag := true, pred_done := true } := by
  simp [stepPred, h1, h2]

/-- Helper: with stream input remaining, the prediction worker performs one
loop iteration: optional train, split, predict, enqueue. -/
theorem stepPred_process {PS LS : Type} (P : PredictorM PS)
    (s : PipeState PS LS) (h1 : s.pred_done = false) (p : List Rat)
    (rest : List (List Rat)) (h2 : s.stream = p :: rest) :
    stepPred P s =
      { s with stream := rest, pos := s.pos + 1,
               ps := (trainedState P s.ps s.training_queue).1,
               training_queue := (trainedState P s.ps s.training_queue).2,
               labelling_queue := put s.labelling_queue (predPoint P (trainedState P s.ps s.training_queue).1 s.pos p),
               enq_log := s.enq_log ++ [predPoint P (trainedState P s.ps s.training_queue).1 s.pos p] } := by
  simp [stepPred, h1, h2, put]

/-- Helper: the labelling worker buy branch. -/
theorem stepLab_buy {PS LS : Type} (L : LabellerM LS) (s : PipeState PS LS)
    (h1 : s.lab_done = false) (h2 : s.stop_flag = false)
    (h3 : L.buy_labels_condition s.ls s.labelling_queue = true) :
    stepLab L s =
      { s with labelling_queue := [],
               ls := (L.buy_labels s.ls s.labelling_queue).2.2,
               training_set := s.training_set ++ (L.buy_labels s.ls s.labelling_queue).1,
               eval_set := s.eval_set ++ (L.buy_labels s.ls s.labelling_queue).2.1,
               training_queue := put_all s.training_queue (L.buy_labels s.ls s.labelling_queue).1,
               drained := s.drained + s.labelling_queue.length } := by
  simp [stepLab, h1, h2, h3]

/-- Helper: the labelling worker never changes the fields owned by the
prediction worker, nor the stop flag. -/
theorem stepLab_pred_fields {PS LS : Type} (L : LabellerM LS)
    (s : PipeState PS LS) :
    (stepLab L s).stream = s.stream ∧ (stepLab L s).pos = s.pos
    ∧ (stepLab L s).enq_log = s.enq_log
    ∧ (stepLab L s).stop_flag = s.stop_flag
    ∧ (stepLab L s).pred_done = s.pred_done := by
  cases h1 : s.lab_done <;> cases h2 : s.stop_flag <;>
    cases h3 : L.buy_labels_condition s.ls s.labelling_queue <;>
    simp [stepLab, h1, h2, h3]

/- ----------------------------------------------------------------------
The prediction-worker invariant.
---------------------------------------------------------------------- -/

/-- Helper: `PredInv` only looks at the stream, position, log, flag and
worker-done fields. -/
theorem predInv_congr {PS LS : Type} {stream0 : List (List Rat)}
    {s t : PipeState PS LS} (h : PredInv stream0 s)
    (hstream : t.stream = s.stream) (hpos : t.pos = s.pos)
    (hlog : t.enq_log = s.enq_log) (hflag : t.stop_flag = s.stop_flag)
    (hpd : t.pred_done = s.pred_done) : PredInv stream0 t := by
  refine ⟨?_, ?_, ?_, ?_, ?_, ?_⟩
  · rw [hpos, hstream]; exact h.pos_stream
  · rw [hstream, hpos]; exact h.stream_eq
  · rw [hlog, hpos]; exact h.log_len
  · rw [hlog]; exact h.log_spec
  · rw [hflag, hpd]; exact h.flag_pred
  · rw [hpd, hflag, hstream]; exact h.pred_flag

/-- Helper: one labelling step preserves the prediction-worker invariant. -/
theorem predInv_stepLab {PS LS : Type} {stream0 : List (List Rat)}
    (L : LabellerM LS) (s : PipeState PS LS) (h : PredInv stream0 s) :
    PredInv stream0 (stepLab L s) := by
  have hf := stepLab_pred_fields L s
  exact predInv_congr h hf.1 hf.2.1 hf.2.2.1 hf.2.2.2.1 hf.2.2.2.2

/-- Helper: one prediction step preserves the prediction-worker invariant. -/
theorem predInv_stepPred {PS LS : Type} {stream0 : List (List Rat)}
    (P : PredictorM PS) (s : PipeState PS LS) (h : PredInv stream0 s) :
    PredInv stream0 (stepPred P s) := by
  cases hpd : s.pred_done with
  | true => rw [stepPred_of_done P s hpd]; exact h
  | false =>
    cases hs : s.stream with
    | nil =>
      rw [stepPred_signal P s hpd hs]
      exact ⟨h.pos_stream, h.stream_eq, h.log_len, h.log_spec,
        fun _ => rfl, fun _ => ⟨rfl, hs⟩⟩
    | cons p rest =>
      rw [stepPred_process P s hpd p rest hs]
      have hd := h.stream_eq
      rw [hs] at hd
      refine ⟨?_, ?_, ?_, ?_, ?_, ?_⟩
      · have := h.pos_stream
        rw [hs] at this
        simp at this ⊢
        omega
      · show rest = stream0.drop (s.pos + 1)
        rw [← List.drop_drop 1 s.pos stream0, ← hd]
        simp
      · simp [h.log_len]
      · intro k e hk
        have hklt : k < s.enq_log.length + 1 := by
          have := (List.getElem?_eq_some_iff.mp hk).1
          simpa using this
        rcases Nat.lt_or_ge k s.enq_log.length with hlt | hge
        · rw [List.getElem?_append_left hlt] at hk
          exact h.log_spec k e hk
        · have hkeq : k = s.enq_log.length := by omega
          subst hkeq
          rw [List.getElem?_concat_length] at hk
          have he : e = predPoint P (trainedState P s.ps s.training_queue).1 s.pos p := by
            injection hk.symm
          subst he
          have hsk : stream0[s.enq_log.length]? = some p := by
            rw [h.log_len]
            have h0 : stream0[s.pos + 0]? = some p := by
              rw [← List.getElem?_drop, ← hd]
              simp
            simpa using h0
          exact ⟨h.log_len.symm, p, hsk, rfl, rfl, (P.do_prediction (trainedState P s.ps s.training_queue).1 p.dropLast), rfl, rfl⟩
      · intro hflag
        exact h.flag_pred hflag
      · intro hc
        have hc2 : s.pred_done = true := hc
        rw [hpd] at hc2
        simp at hc2

/-- Helper: the invariant holds at the initial state. -/
theorem predInv_init {PS LS : Type} (stream0 : List (List Rat)) (ps0 : PS)
    (ls0 : LS) : PredInv stream0 (initState stream0 ps0 ls0) := by
  refine ⟨by simp [initState], by simp [initState], rfl, ?_, ?_, ?_⟩
  · intro k e hk
    simp [initState] at hk
  · intro hflag
    simp [initState] at hflag
  · intro hpd
    simp [initState] at hpd

/-- Helper: the invariant is preserved by any schedule. -/
theorem predInv_exec {PS LS : Type} {stream0 : List (List Rat)}
    (P : PredictorM PS) (L : LabellerM LS) :
    ∀ (sched : List Bool) (s : PipeState PS LS), PredInv stream0 s →
      PredInv stream0 (exec P L sched s)
  | [], _, h => h
  | c :: sched, s, h => by
    have hstep : PredInv stream0 (doStep P L s c) := by
      cases c with
      | true => exact predInv_stepPred P s h
      | false => exact predInv_stepLab L s h
    exact predInv_exec P L sched (doStep P L s c) hstep

/-- Helper: the invariant holds at every reachable state. -/
theorem predInv_reach {PS LS : Type} {stream0 : List (List Rat)}
    {P : PredictorM PS} {L : LabellerM LS} {ps0 : PS} {ls0 : LS}
    {s : PipeState PS LS}
    (hr : Reach P L (initState stream0 ps0 ls0) s) : PredInv stream0 s := by
  obtain ⟨sched, hsched⟩ := hr
  rw [← hsched]
  exact predInv_exec P L sched _ (predInv_init stream0 ps0 ls0)

/- ----------------------------------------------------------------------
The labelling-worker invariant.
---------------------------------------------------------------------- -/

/-- Helper: `qIdx` distributes over append. -/
theorem qIdx_append (a b : List QueuePoint) :
    qIdx (a ++ b) = qIdx a + qIdx b := by
  simp [qIdx, Multiset.coe_add]

/-- Helper: `qIdx` of a single point. -/
theorem qIdx_singleton (e : QueuePoint) : qIdx [e] = {e.index} := by
  simp [qIdx]

/-- Helper: permuted lists have the same index multiset. -/
theorem qIdx_of_perm {a b : List QueuePoint} (h : a.Perm b) :
    qIdx a = qIdx b := by
  simp only [qIdx, Multiset.coe_eq_coe]
  exact h.map QueuePoint.index

/-- Helper: one prediction step preserves the labelling-worker invariant:
the newly enqueued point carries the fresh index `s.pos`. -/
theorem labInv_stepPred {PS LS : Type} (P : PredictorM PS)
    (s : PipeState PS LS) (h : LabInv s) : LabInv (stepPred P s) := by
  cases hpd : s.pred_done with
  | true => rw [stepPred_of_done P s hpd]; exact h
  | false =>
    cases hs : s.stream with
    | nil =>
      rw [stepPred_signal P s hpd hs]
      exact ⟨h.idx_perm, h.drained_eq⟩
    | cons p rest =>
      rw [stepPred_process P s hpd p rest hs]
      refine ⟨?_, h.drained_eq⟩
      show qIdx (put s.labelling_queue (predPoint P (trainedState P s.ps s.training_queue).1 s.pos p))
          + qIdx s.training_set + qIdx s.eval_set = Multiset.range (s.pos + 1)
      rw [put, qIdx_append, qIdx_singleton]
      show qIdx s.labelling_queue + {s.pos} + qIdx s.training_set + qIdx s.eval_set
          = Multiset.range (s.pos + 1)
      rw [Multiset.range_succ, ← Multiset.singleton_add, ← h.idx_perm]
      simp [add_comm, add_left_comm, add_assoc]

/-- Helper: one labelling step preserves the labelling-worker invariant,
provided the labeller partitions its drained batch. -/
theorem labInv_stepLab {PS LS : Type} (L : LabellerM LS)
    (hL : PartitionLabeller L) (s : PipeState PS LS) (h : LabInv s) :
    LabInv (stepLab L s) := by
  cases h1 : s.lab_done with
  | true => simp only [stepLab, h1]; exact ⟨h.idx_perm, h.drained_eq⟩
  | false =>
    cases h2 : s.stop_flag with
    | true =>
      simp only [stepLab, h1, h2]
      exact ⟨h.idx_perm, h.drained_eq⟩
    | false =>
      cases h3 : L.buy_labels_condition s.ls s.labelling_queue with
      | false => simp only [stepLab, h1, h2, h3]; exact ⟨h.idx_perm, h.drained_eq⟩
      | true =>
        rw [stepLab_buy L s h1 h2 h3]
        have hperm := hL s.ls s.labelling_queue
        have hq : qIdx (L.buy_labels s.ls s.labelling_queue).1
            + qIdx (L.buy_labels s.ls s.labelling_queue).2.1
            = qIdx s.labelling_queue := by
          rw [← qIdx_append]
          exact qIdx_of_perm hperm
        have hlen : (L.buy_labels s.ls s.labelling_queue).1.length
            + (L.buy_labels s.ls s.labelling_queue).2.1.length
            = s.labelling_queue.length := by
          have := hperm.length_eq
          simpa using this
        constructor
        · show qIdx ([] : List QueuePoint)
              + qIdx (s.training_set ++ (L.buy_labels s.ls s.labelling_queue).1)
              + qIdx (s.eval_set ++ (L.buy_labels s.ls s.labelling_queue).2.1)
              = Multiset.range s.pos
          rw [qIdx_append, qIdx_append, ← h.idx_perm, ← hq]
          show (0 : Multiset Nat) + _ + _ = _
          simp [add_comm, add_left_comm, add_assoc]
        · show s.drained + s.labelling_queue.length
              = (s.training_set ++ (L.buy_labels s.ls s.labelling_queue).1).length
              + (s.eval_set ++ (L.buy_labels s.ls s.labelling_queue).2.1).length
          have hd := h.drained_eq
          simp only [List.length_append]
          omega

/-- Helper: the labelling-worker invariant holds initially. -/
theorem labInv_init {PS LS : Type} (stream0 : List (List Rat)) (ps0 : PS)
    (ls0 : LS) : LabInv (initState stream0 ps0 ls0) := by
  constructor
  · show qIdx [] + qIdx [] + qIdx [] = Multiset.range 0
    simp [qIdx]
  · rfl

/-- Helper: the labelling-worker invariant is preserved by any schedule. -/
theorem labInv_exec {PS LS : Type} (P : PredictorM PS) (L : LabellerM LS)
    (hL : PartitionLabeller L) :
    ∀ (sched : List Bool) (s : PipeState PS LS), LabInv s →
      LabInv (exec P L sched s)
  | [], _, h => h
  | c :: sched, s, h => by
    have hstep : LabInv (doStep P L s c) := by
      cases c with
      | true => exact labInv_stepPred P s h
      | false => exact labInv_stepLab L hL s h
    exact labInv_exec P L hL sched (doStep P L s c) hstep

/-- Helper: the labelling-worker invariant holds at every reachable state. -/
theorem labInv_reach {PS LS : Type} {stream0 : List (List Rat)}
    {P : PredictorM PS} {L : LabellerM LS} {ps0 : PS} {ls0 : LS}
    {s : PipeState PS LS} (hL : PartitionLabeller L)
    (hr : Reach P L (initState stream0 ps0 ls0) s) : LabInv s := by
  obtain ⟨sched, hsched⟩ := hr
  rw [← hsched]
  exact labInv_exec P L hL sched _ (labInv_init stream0 ps0 ls0)

/- ----------------------------------------------------------------------
The claims about the coordination layer.
---------------------------------------------------------------------- -/

/-- Claim C3: in every run whose labeller partitions its drained batches,
the two result sets together hold exactly the points ever drained from the
labelling queue, and every index across both sets is unique and lies in the
index range of the input stream. -/
theorem result_sets_partition {PS LS : Type} (P : PredictorM PS)
    (L : LabellerM LS) (stream0 : List (List Rat)) (ps0 : PS) (ls0 : LS)
    (s : PipeState PS LS) (hL : PartitionLabeller L)
    (hr : Reach P L (initState stream0 ps0 ls0) s) :
    s.training_set.length + s.eval_set.length = s.drained
    ∧ ((s.training_set ++ s.eval_set).map QueuePoint.index).Nodup
    ∧ ∀ e ∈ s.training_set ++ s.eval_set, e.index < stream0.length := by
  have hlab := labInv_reach hL hr
  have hpred := predInv_reach hr
  have hle : qIdx s.training_set + qIdx s.eval_set ≤ Multiset.range s.pos := by
    rw [← hlab.idx_perm, add_assoc]
    exact le_add_self
  have hpos : s.pos ≤ stream0.length := by
    have := hpred.pos_stream
    omega
  refine ⟨hlab.drained_eq.symm, ?_, ?_⟩
  · have h2 : (qIdx (s.training_set ++ s.eval_set)).Nodup := by
      rw [qIdx_append]
      exact Multiset.nodup_of_le hle (Multiset.nodup_range s.pos)
    exact Multiset.coe_nodup.mp h2
  · intro e he
    have hm : e.index ∈ qIdx s.training_set + qIdx s.eval_set := by
      rw [← qIdx_append]
      simp only [qIdx, Multiset.mem_coe, List.mem_map]
      exact ⟨e, he, rfl⟩
    have hr2 : e.index ∈ Multiset.range s.pos := Multiset.mem_of_le hle hm
    have := Multiset.mem_range.mp hr2
    omega

/-- Witness for C3: scenario A under the fair schedule, with the
all-buying labeller, a partitioning labeller. -/
theorem result_sets_partition_witness :
    PartitionLabeller allLabeller
    ∧ runGoodA.training_set.length + runGoodA.eval_set.length
        = runGoodA.drained :=
  ⟨fun ls batch => by simp [allLabeller],
   (result_sets_partition constPredictor allLabeller streamA () () runGoodA
      (fun ls batch => by simp [allLabeller]) ⟨goodSchedA, rfl⟩).1⟩

/-- Claim C4: the stop flag starts false, the labelling worker never writes
it, the prediction worker only ever raises it — and only once, in the same
step that finishes the worker — and no step of either worker resets it. -/
theorem stop_flag_one_shot {PS LS : Type} (P : PredictorM PS)
    (L : LabellerM LS) (stream0 : List (List Rat)) (ps0 : PS) (ls0 : LS)
    (s : PipeState PS LS) :
    (initState stream0 ps0 ls0).stop_flag = false
    ∧ (s.stop_flag = true → (stepPred P s).stop_flag = true)
    ∧ (stepLab L s).stop_flag = s.stop_flag
    ∧ (s.stop_flag = false → (stepPred P s).stop_flag = true →
        s.pred_done = false ∧ (stepPred P s).pred_done = true ∧ s.stream = [])
    ∧ (s.pred_done = true → stepPred P s = s) := by
  refine ⟨rfl, ?_, (stepLab_pred_fields L s).2.2.2.1, ?_, fun hd => stepPred_of_done P s hd⟩
  · intro hf
    cases hpd : s.pred_done with
    | true => rw [stepPred_of_done P s hpd]; exact hf
    | false =>
      cases hs : s.stream with
      | nil => rw [stepPred_signal P s hpd hs]
      | cons p rest =>
        rw [stepPred_process P s hpd p rest hs]
        exact hf
  · intro hf hf2
    cases hpd : s.pred_done with
    | true =>
      rw [stepPred_of_done P s hpd] at hf2
      rw [hf] at hf2
      simp at hf2
    | false =>
      cases hs : s.stream with
      | nil =>
        refine ⟨rfl, ?_, rfl⟩
        rw [stepPred_signal P s hpd hs]
      | cons p rest =>
        rw [stepPred_process P s hpd p rest hs] at hf2
        have hf3 : s.stop_flag = true := hf2
        rw [hf] at hf3
        simp at hf3

/-- Witness for C4: the flag monotonicity and the finished prediction
worker observed on the concrete adversarial run of scenario A. -/
theorem stop_flag_one_shot_witness :
    (initState streamA () ()).stop_flag = false
    ∧ runBadA.stop_flag = true
    ∧ (stepPred constPredictor runBadA).stop_flag = true
    ∧ runBadA.pred_done = true
    ∧ stepPred constPredictor runBadA = runBadA :=
  ⟨(stop_flag_one_shot constPredictor allLabeller streamA () () runBadA).1,
   by decide,
   (stop_flag_one_shot constPredictor allLabeller streamA () () runBadA).2.1
     (by decide),
   by decide,
   (stop_flag_one_shot constPredictor allLabeller streamA () () runBadA).2.2.2.2
     (by decide)⟩

/-- Claim C5: in every reachable state the prediction worker has processed
the stream in order — the k-th enqueued point carries index k, the feature
part and the trailing true label of the k-th raw record, and a prediction
pair — the signal is set only once the stream is exhausted, after which the
worker makes no further step (in particular no enqueue and no second
signal), and each processing step is exactly: optional train when
`train_condition` holds, split, predict, enqueue. -/
theorem prediction_worker_stream_order {PS LS : Type} (P : PredictorM PS)
    (L : LabellerM LS) (stream0 : List (List Rat)) (ps0 : PS) (ls0 : LS)
    (s : PipeState PS LS)
    (hr : Reach P L (initState stream0 ps0 ls0) s) :
    s.enq_log.length = s.pos
    ∧ (∀ (k : Nat) (e : QueuePoint), s.enq_log[k]? = some e →
        e.index = k ∧ ∃ p, stream0[k]? = some p ∧ e.point = p.dropLast
          ∧ e.true_label = p.getLast?
          ∧ ∃ q : PVal × PVal, e.predicted_label = some q.1 ∧ e.prob = some q.2)
    ∧ (s.stop_flag = true → s.stream = [] ∧ s.pos = stream0.length
        ∧ stepPred P s = s)
    ∧ ∀ (t : PipeState PS LS) (p : List Rat) (rest : List (List Rat)),
        t.pred_done = false → t.stream = p :: rest →
        stepPred P t =
          { t with stream := rest, pos := t.pos + 1,
                   ps := (trainedState P t.ps t.training_queue).1,
                   training_queue := (trainedState P t.ps t.training_queue).2,
                   labelling_queue := put t.labelling_queue (predPoint P (trainedState P t.ps t.training_queue).1 t.pos p),
                   enq_log := t.enq_log ++ [predPoint P (trainedState P t.ps t.training_queue).1 t.pos p] } := by
  have hinv := predInv_reach hr
  refine ⟨hinv.log_len, hinv.log_spec, ?_,
    fun t p rest h1 h2 => stepPred_process P t h1 p rest h2⟩
  intro hf
  have hpd := hinv.flag_pred hf
  have hpf := hinv.pred_flag hpd
  refine ⟨hpf.2, ?_, stepPred_of_done P s hpd⟩
  have := hinv.pos_stream
  rw [hpf.2] at this
  simpa using this

/-- Witness for C5: the log-position agreement on the concrete adversarial
run of scenario A. -/
theorem prediction_worker_stream_order_witness :
    runBadA.enq_log.length = runBadA.pos :=
  (prediction_worker_stream_order constPredictor allLabeller streamA () ()
    runBadA ⟨badSchedA, rfl⟩).1

end Olac
